import Mathlib

/-!
Shallow embedding of `src/aphrodite/endpoints/deep_tree_echo/batch_optimizer.py`
(the Priority-Adaptive Batch Scheduler).

Modelling conventions:
* Python `int` is embedded as `ℤ`, Python `float` as `ℚ` (no claim below
  depends on floating-point rounding), request ids as `ℕ`.
* `asyncio.Future` becomes an explicit `FutureState` value; the per-process
  collection of futures is a map `ℕ → FutureState` keyed by request id.
* Fallible code (a Python statement that can raise `ZeroDivisionError`)
  returns `Option`.
-/

namespace BatchOpt

/-- `RequestPriority` enum values: CRITICAL = 0, HIGH = 1, NORMAL = 2,
LOW = 3, BACKGROUND = 4. -/
def CRITICAL : ℤ := 0

def HIGH : ℤ := 1

def NORMAL : ℤ := 2

/-- `BatchOptimizerConfig` (fields consulted by the algorithms the claims
touch; the remaining declared fields — prefetch, batch splitting,
`critical_timeout_ms`, `coalescing_similarity_threshold` — are never read
by the embedded code paths). -/
structure BatchOptimizerConfig where
  min_batch_size : ℤ
  max_batch_size : ℤ
  target_batch_size : ℤ
  enable_priority_batching : Bool
  critical_batch_size : ℤ
  high_priority_batch_size : ℤ
  enable_gpu_aware_sizing : Bool
  target_gpu_utilization : ℚ
  gpu_utilization_window : ℕ
  adaptive_timeout : Bool
  min_timeout_ms : ℚ
  max_timeout_ms : ℚ
  enable_coalescing : Bool
deriving Repr, DecidableEq

/-- The default `BatchOptimizerConfig()` values. -/
def defaultConfig : BatchOptimizerConfig where
  min_batch_size := 1
  max_batch_size := 64
  target_batch_size := 16
  enable_priority_batching := true
  critical_batch_size := 1
  high_priority_batch_size := 4
  enable_gpu_aware_sizing := true
  target_gpu_utilization := 85 / 100
  gpu_utilization_window := 10
  adaptive_timeout := true
  min_timeout_ms := 10
  max_timeout_ms := 100
  enable_coalescing := true

/-- The sample-window update inside `_calculate_optimal_batch_size`:
`gpu_samples.append(gpu_util)` followed by `gpu_samples.pop(0)` when the
window size is exceeded. -/
def updateGpuSamples (cfg : BatchOptimizerConfig) (samples : List ℚ) (u : ℚ) :
    List ℚ :=
  let s := samples ++ [u]
  if s.length > cfg.gpu_utilization_window then s.tail else s

/-- `_calculate_optimal_batch_size`.  `gpuSample` is `some u` when
`enable_gpu_aware_sizing` would find a configured `gpu_monitor` that
returns `u` without raising; `none` covers an absent monitor or a monitor
exception (the `except` branch leaves the size untouched).  `headPriority`
is the priority of `self._request_heap[0]` at the peek, `none` when the
heap is empty. -/
def calcOptimalBatchSize (cfg : BatchOptimizerConfig) (gpuSample : Option ℚ)
    (samples : List ℚ) (headPriority : Option ℤ) : ℤ :=
  let base := cfg.target_batch_size
  let sized :=
    if cfg.enable_gpu_aware_sizing then
      match gpuSample with
      | some u =>
          let s := updateGpuSamples cfg samples u
          let avg := s.sum / (s.length : ℚ)
          if avg < cfg.target_gpu_utilization - 1 / 10 then
            min (base + 4) cfg.max_batch_size
          else if avg > cfg.target_gpu_utilization + 1 / 10 then
            max (base - 4) cfg.min_batch_size
          else base
      | none => base
    else base
  match headPriority with
  | some p =>
      if p = CRITICAL then cfg.critical_batch_size
      else if p = HIGH then min sized cfg.high_priority_batch_size
      else sized
  | none => sized

/-- `_calculate_timeout`.  `queueSize` is `len(self._request_heap)`.
Python's `batch_size // 2` is floor division, hence `Int.fdiv`.  The
`ratio` branch divides by `batch_size` in `ℚ`; it is only reached when
`batch_size ≥ 1` (otherwise `queue_size >= batch_size * 2` already holds),
so the total `ℚ` division is faithful. -/
def calcTimeout (cfg : BatchOptimizerConfig) (queueSize : ℕ) (batchSize : ℤ) :
    ℚ :=
  if ¬ cfg.adaptive_timeout then cfg.max_timeout_ms
  else if (queueSize : ℤ) ≥ batchSize * 2 then cfg.min_timeout_ms
  else if (queueSize : ℤ) < Int.fdiv batchSize 2 then cfg.max_timeout_ms
  else
    let ratio : ℚ := (queueSize : ℚ) / (batchSize : ℚ)
    cfg.min_timeout_ms + (cfg.max_timeout_ms - cfg.min_timeout_ms) * (1 - ratio)

/-- `PrioritizedRequest` (`@dataclass(order=True)`): the heap compares
`(priority, timestamp)` lexicographically; `request_id`, `request_data`
and `future` carry `compare=False`.  The future lives in the global map
`ℕ → FutureState`, keyed by `request_id`. -/
structure PrioritizedRequest where
  priority : ℤ
  timestamp : ℚ
  request_id : ℕ
  request_data : List (ℤ × ℤ)
deriving Repr, DecidableEq

/-- The `order=True` dataclass comparison: lexicographic on
`(priority, timestamp)`. -/
def reqLe (a b : PrioritizedRequest) : Prop :=
  a.priority < b.priority ∨ (a.priority = b.priority ∧ a.timestamp ≤ b.timestamp)

instance : DecidableRel reqLe := fun a b => by
  unfold reqLe; infer_instance

/-- `asyncio.Future`: pending, or completed exactly once with a result
(`set_result`) or an exception (`set_exception`). -/
inductive FutureState where
  | pending : FutureState
  | result : ℕ → FutureState
  | failure : ℕ → FutureState
deriving Repr, DecidableEq

/-- `future.done()`. -/
def FutureState.done : FutureState → Bool
  | .pending => false
  | .result _ => true
  | .failure _ => true

/-- The guarded completion step of `_process_batch`:
`if not req.future.done(): req.future.set_result(...)` (and likewise for
`set_exception`), acting on the global future map at key `id`. -/
def completeIfPending (f : ℕ → FutureState) (id : ℕ) (s : FutureState) :
    ℕ → FutureState :=
  fun i => if i = id then (if (f id).done then f id else s) else f i

/-- The success path of `_process_batch`:
`for req, result in zip(batch, results): if not req.future.done(): ...`.
`List.zip` truncates at the shorter list exactly as Python `zip` does. -/
def distributeResults (pairs : List (PrioritizedRequest × ℕ))
    (f : ℕ → FutureState) : ℕ → FutureState :=
  pairs.foldl (fun acc pr => completeIfPending acc pr.1.request_id (.result pr.2)) f

def processBatchSuccess (batch : List PrioritizedRequest) (results : List ℕ)
    (f : ℕ → FutureState) : ℕ → FutureState :=
  distributeResults (batch.zip results) f

/-- The failure path of `_process_batch`:
`for req in batch: if not req.future.done(): req.future.set_exception(e)`. -/
def failBatch (batch : List PrioritizedRequest) (e : ℕ)
    (f : ℕ → FutureState) : ℕ → FutureState :=
  batch.foldl (fun acc r => completeIfPending acc r.request_id (.failure e)) f

/-- The metrics fields `_update_metrics` touches. -/
structure Metrics where
  batches_processed : ℕ
  avg_batch_size : ℚ
  peak_batch_size : ℤ
  avg_processing_time_ms : ℚ
  throughput_req_per_sec : ℚ
  batch_efficiency : ℚ
deriving Repr, DecidableEq

/-- `BatchOptimizerMetrics()` defaults for the embedded fields. -/
def initMetrics : Metrics where
  batches_processed := 0
  avg_batch_size := 0
  peak_batch_size := 0
  avg_processing_time_ms := 0
  throughput_req_per_sec := 0
  batch_efficiency := 0

/-- `_update_metrics(batch_size, processing_time_ms)`.  The statement
`theoretical_throughput = max_batch_size / avg_processing_time_ms` is the
one unguarded division; when the updated running-mean processing time is
zero, Python raises `ZeroDivisionError`, embedded as `none` (the other two
divisions sit behind `processing_time_ms > 0` and
`theoretical_throughput > 0` guards). -/
def updateMetrics (cfg : BatchOptimizerConfig) (m : Metrics) (batchSize : ℤ)
    (pt : ℚ) : Option Metrics :=
  let n : ℕ := m.batches_processed + 1
  let avgB : ℚ := (m.avg_batch_size * ((n : ℚ) - 1) + (batchSize : ℚ)) / (n : ℚ)
  let peak : ℤ := if batchSize > m.peak_batch_size then batchSize else m.peak_batch_size
  let avgP : ℚ := (m.avg_processing_time_ms * ((n : ℚ) - 1) + pt) / (n : ℚ)
  let thr : ℚ := if pt > 0 then ((batchSize : ℚ) / pt) * 1000 else m.throughput_req_per_sec
  if avgP = 0 then none
  else
    let theo : ℚ := (cfg.max_batch_size : ℚ) / avgP
    let eff : ℚ := if theo > 0 then thr / theo else m.batch_efficiency
    some
      { batches_processed := n
        avg_batch_size := avgB
        peak_batch_size := peak
        avg_processing_time_ms := avgP
        throughput_req_per_sec := thr
        batch_efficiency := eff }

/-- Lexicographic order on payload key/value pairs, used to canonicalise a
payload the way `str(sorted(req.request_data.items()))` does. -/
def pairLe (a b : ℤ × ℤ) : Bool :=
  decide (a.1 < b.1) || (decide (a.1 = b.1) && decide (a.2 ≤ b.2))

def insertPair (x : ℤ × ℤ) : List (ℤ × ℤ) → List (ℤ × ℤ)
  | [] => [x]
  | y :: ys => if pairLe x y then x :: y :: ys else y :: insertPair x ys

def sortPairs : List (ℤ × ℤ) → List (ℤ × ℤ)
  | [] => []
  | x :: xs => insertPair x (sortPairs xs)

/-- The grouping key of `_coalesce_requests`:
`str(hash(str(sorted(req.request_data.items()))))`.  Two payloads group
together exactly when their canonical (sorted) serialisations agree, so
the key is embedded as that canonical form itself. -/
def reqHash (r : PrioritizedRequest) : List (ℤ × ℤ) :=
  sortPairs r.request_data

/-- Keys in order of first occurrence, skipping keys already emitted
(`seen` accumulates them): the iteration order of the Python `groups`
dict (insertion-ordered). -/
def firstKeysAux {α : Type} [DecidableEq α] (seen : List α) :
    List α → List α
  | [] => []
  | h :: t =>
      if h ∈ seen then firstKeysAux seen t
      else h :: firstKeysAux (h :: seen) t

def firstKeys {α : Type} [DecidableEq α] (l : List α) : List α :=
  firstKeysAux [] l

/-- `groups[req_hash]`: the members of `batch` carrying hash `h`, in batch
order. -/
def groupOf (batch : List PrioritizedRequest) (h : List (ℤ × ℤ)) :
    List PrioritizedRequest :=
  batch.filter (fun r => decide (reqHash r = h))

def coalesceKeys (batch : List PrioritizedRequest) : List (List (ℤ × ℤ)) :=
  firstKeys (batch.map reqHash)

/-- The coalesced batch `_coalesce_requests` returns: for each group (in
first-occurrence key order) keep `group[0]`. -/
def coalesceKept (batch : List PrioritizedRequest) : List PrioritizedRequest :=
  (coalesceKeys batch).filterMap (fun h => (groupOf batch h).head?)

/-- The side-table entries `_coalesce_requests` writes into
`self._coalescing_cache`: for each group with more than one member,
`primary.request_id ↦ [ids of group[1:]]`. -/
def coalesceTable (batch : List PrioritizedRequest) : List (ℕ × List ℕ) :=
  (coalesceKeys batch).filterMap (fun h =>
    match groupOf batch h with
    | [] => none
    | [_] => none
    | p :: q :: rest => some (p.request_id, (q :: rest).map PrioritizedRequest.request_id))

/-- The `coalescing_rate` running-mean update performed once per group of
size > 1, with `batches_processed` fixed for the whole call. -/
def coalesceRate (batchesProcessed : ℕ) (rate : ℚ)
    (batch : List PrioritizedRequest) : ℚ :=
  (coalesceKeys batch).foldl
    (fun r h =>
      let g := groupOf batch h
      if g.length > 1 then
        (r * (batchesProcessed : ℚ) + ((g.length : ℚ) - 1)) / ((batchesProcessed : ℚ) + 1)
      else r)
    rate

/-- Models `heapq.heappop` on the request heap: removes and returns a
smallest element under the `order=True` dataclass comparison
(lexicographic `(priority, timestamp)`); the leftmost minimum is taken,
which agrees with `heapq` whenever the minimum is unique. -/
def popMin : List PrioritizedRequest →
    Option (PrioritizedRequest × List PrioritizedRequest)
  | [] => none
  | x :: xs =>
    match popMin xs with
    | none => some (x, [])
    | some (m, rest) => if reqLe x m then some (x, xs) else some (m, x :: rest)

/-- The sequence of requests `_collect_batch` pops (one `heappop` per loop
iteration) when no new request arrives during collection and the timeout
does not expire early: up to `n` successive pops. -/
def collectPops : ℕ → List PrioritizedRequest → List PrioritizedRequest
  | 0, _ => []
  | n + 1, h =>
    match popMin h with
    | none => []
    | some (m, rest) => m :: collectPops n rest

/-- Primitive events of `_collect_batch`, in program order: entering
`async with self._heap_lock` (`lockAcquire`), `heapq.heappop`
(`heapPop`), `await asyncio.sleep(0.001)` (`sleep` — a suspension point),
and leaving the `async with` block (`lockRelease`). -/
inductive CollectEv where
  | lockAcquire : CollectEv
  | heapPop : CollectEv
  | sleep : CollectEv
  | lockRelease : CollectEv
deriving Repr, DecidableEq

/-- The event trace of `_collect_batch`'s loop, transcribed from the code
block structure: each iteration acquires the lock; under the lock it
either pops (heap non-empty), breaks out (heap empty, batch non-empty),
or awaits `asyncio.sleep(0.001)` — still inside the `async with`; the
lock is released when the `async with` block is exited.  `fuel` bounds
the number of iterations (the wall-clock timeout is not modelled). -/
def collectTrace (fuel : ℕ) (targetSize : ℤ)
    (queue batch : List PrioritizedRequest) : List CollectEv :=
  match fuel with
  | 0 => []
  | fuel + 1 =>
    if (batch.length : ℤ) < targetSize then
      match queue with
      | r :: qs =>
          [CollectEv.lockAcquire, CollectEv.heapPop, CollectEv.lockRelease] ++
            collectTrace fuel targetSize qs (batch ++ [r])
      | [] =>
          if batch.isEmpty then
            [CollectEv.lockAcquire, CollectEv.sleep, CollectEv.lockRelease] ++
              collectTrace fuel targetSize [] batch
          else [CollectEv.lockAcquire, CollectEv.lockRelease]
    else []

def containsSleepHeld : List CollectEv → Bool → Bool
  | [], _ => false
  | CollectEv.lockAcquire :: t, _ => containsSleepHeld t true
  | CollectEv.lockRelease :: t, _ => containsSleepHeld t false
  | CollectEv.sleep :: t, held => held || containsSleepHeld t held
  | CollectEv.heapPop :: t, held => containsSleepHeld t held

/-- `true` iff somewhere in the trace a `sleep` event occurs while the
queue lock is held. -/
def sleepsWhileHoldingLock (tr : List CollectEv) : Bool :=
  containsSleepHeld tr false

/-- A configuration with `min_batch_size = 2` but the default
`critical_batch_size = 1`: sizing a round whose queue head is CRITICAL
returns 1, below the configured minimum. -/
def c1CexConfig : BatchOptimizerConfig :=
  { defaultConfig with min_batch_size := 2 }

/-- C4: whenever the queue head has CRITICAL priority at the peek,
`_calculate_optimal_batch_size` returns `critical_batch_size`, whatever
the utilization-based adjustment computed earlier in the round. -/
theorem c4_critical_override (cfg : BatchOptimizerConfig) (g : Option ℚ)
    (s : List ℚ) :
    calcOptimalBatchSize cfg g s (some CRITICAL) = cfg.critical_batch_size := by
  rcases g with _ | u <;> simp [calcOptimalBatchSize, CRITICAL]

/-- C1 (counterexample): the claim quantifies over every configuration,
but with `min_batch_size = 2` and the default `critical_batch_size = 1`,
a CRITICAL queue head makes `_calculate_optimal_batch_size` return 1,
violating `min_batch_size ≤ size`. -/
theorem c1_counterexample :
    ¬ (c1CexConfig.min_batch_size ≤
        calcOptimalBatchSize c1CexConfig none [] (some CRITICAL) ∧
       calcOptimalBatchSize c1CexConfig none [] (some CRITICAL) ≤
        c1CexConfig.max_batch_size) := by
  decide

/-- C1 (amended): for every configuration whose sizing fields are
mutually consistent — `min_batch_size ≤ target_batch_size ≤
max_batch_size`, `min_batch_size ≤ critical_batch_size ≤ max_batch_size`
and `min_batch_size ≤ high_priority_batch_size` (all true of the
defaults) — and every utilization sample, sample window and queue state,
the size returned by `_calculate_optimal_batch_size` lies within
`[min_batch_size, max_batch_size]`. -/
theorem c1_bounds (cfg : BatchOptimizerConfig) (g : Option ℚ) (s : List ℚ)
    (hp : Option ℤ)
    (h1 : cfg.min_batch_size ≤ cfg.target_batch_size)
    (h2 : cfg.target_batch_size ≤ cfg.max_batch_size)
    (h3 : cfg.min_batch_size ≤ cfg.critical_batch_size)
    (h4 : cfg.critical_batch_size ≤ cfg.max_batch_size)
    (h5 : cfg.min_batch_size ≤ cfg.high_priority_batch_size) :
    cfg.min_batch_size ≤ calcOptimalBatchSize cfg g s hp ∧
      calcOptimalBatchSize cfg g s hp ≤ cfg.max_batch_size := by
  rcases g with _ | u <;> rcases hp with _ | p <;>
    simp only [calcOptimalBatchSize, CRITICAL, HIGH] <;>
    split_ifs <;> omega

theorem c1_bounds_witness :
    defaultConfig.min_batch_size ≤
        calcOptimalBatchSize defaultConfig none [] none ∧
      calcOptimalBatchSize defaultConfig none [] none ≤
        defaultConfig.max_batch_size :=
  c1_bounds defaultConfig none [] none (by decide) (by decide) (by decide)
    (by decide) (by decide)

/-- C9: the claim says the Batch Collector never suspends while holding
the queue lock, but on an empty queue with an empty batch `_collect_batch`
awaits `asyncio.sleep(0.001)` inside the `async with self._heap_lock`
block: the very first loop iteration already sleeps holding the lock. -/
theorem c9_sleep_holding_lock :
    sleepsWhileHoldingLock
        (collectTrace 1 defaultConfig.target_batch_size [] []) = true := by
  decide

/-- C6: with adaptive timeout enabled, `_calculate_timeout` follows the
three-branch rule of the claim (with `targetSize/2` the integer floor
division `batch_size // 2` the code performs), and on the concrete
configuration `min=10, max=100, targetSize=16`: queue length 32 gives 10,
queue length 4 gives 100, and queue length 16 gives 10. -/
theorem c6_adaptive_timeout (cfg : BatchOptimizerConfig) (q : ℕ) (b : ℤ)
    (h : cfg.adaptive_timeout = true) :
    (calcTimeout cfg q b =
      if (q : ℤ) ≥ 2 * b then cfg.min_timeout_ms
      else if (q : ℤ) < Int.fdiv b 2 then cfg.max_timeout_ms
      else cfg.min_timeout_ms +
        (cfg.max_timeout_ms - cfg.min_timeout_ms) * (1 - (q : ℚ) / (b : ℚ))) ∧
    calcTimeout defaultConfig 32 16 = 10 ∧
    calcTimeout defaultConfig 4 16 = 100 ∧
    calcTimeout defaultConfig 16 16 = 10 := by
  have hfd : Int.fdiv 16 2 = 8 := by decide
  refine ⟨?_, by norm_num [calcTimeout, defaultConfig, hfd],
    by norm_num [calcTimeout, defaultConfig, hfd],
    by norm_num [calcTimeout, defaultConfig, hfd]⟩
  simp only [calcTimeout, h, Bool.true_eq_false, not_false_eq_true,
    if_false, ite_not, mul_comm, ite_true]

theorem c6_adaptive_timeout_witness :
    (calcTimeout defaultConfig 8 16 =
      if ((8 : ℕ) : ℤ) ≥ 2 * 16 then defaultConfig.min_timeout_ms
      else if ((8 : ℕ) : ℤ) < Int.fdiv 16 2 then defaultConfig.max_timeout_ms
      else defaultConfig.min_timeout_ms +
        (defaultConfig.max_timeout_ms - defaultConfig.min_timeout_ms) *
          (1 - ((8 : ℕ) : ℚ) / ((16 : ℤ) : ℚ))) ∧
    calcTimeout defaultConfig 32 16 = 10 ∧
    calcTimeout defaultConfig 4 16 = 100 ∧
    calcTimeout defaultConfig 16 16 = 10 :=
  c6_adaptive_timeout defaultConfig 8 16 (by decide)

/-- Helper: with a strictly positive measured processing time and a
nonnegative prior running mean, `_update_metrics` completes (no
`ZeroDivisionError`), increments the batch counter, applies the
incremental-mean update to `avg_batch_size`, and leaves a strictly
positive running-mean processing time. -/
theorem updateMetrics_some (cfg : BatchOptimizerConfig) (m : Metrics)
    (s : ℤ) (pt : ℚ) (h0 : 0 ≤ m.avg_processing_time_ms) (hpt : 0 < pt) :
    ∃ m', updateMetrics cfg m s pt = some m' ∧
      m'.batches_processed = m.batches_processed + 1 ∧
      m'.avg_batch_size =
        (m.avg_batch_size * (m.batches_processed : ℚ) + (s : ℚ)) /
          ((m.batches_processed : ℚ) + 1) ∧
      0 < m'.avg_processing_time_ms := by
  have hn : ((m.batches_processed + 1 : ℕ) : ℚ) = (m.batches_processed : ℚ) + 1 := by
    push_cast; ring
  have hpos :
      0 < (m.avg_processing_time_ms * (((m.batches_processed + 1 : ℕ) : ℚ) - 1) + pt) /
        ((m.batches_processed + 1 : ℕ) : ℚ) := by
    rw [hn]
    apply div_pos
    · have hb : (0 : ℚ) ≤ (m.batches_processed : ℚ) := by positivity
      nlinarith
    · positivity
  simp only [updateMetrics]
  rw [if_neg (ne_of_gt hpos)]
  refine ⟨_, rfl, rfl, ?_, hpos⟩
  show (m.avg_batch_size * (((m.batches_processed + 1 : ℕ) : ℚ) - 1) + (s : ℚ)) /
      ((m.batches_processed + 1 : ℕ) : ℚ) =
    (m.avg_batch_size * (m.batches_processed : ℚ) + (s : ℚ)) /
      ((m.batches_processed : ℚ) + 1)
  rw [hn]
  ring_nf

/-- C10: whenever `_update_metrics` receives a strictly positive measured
processing time and the recorded running mean is nonnegative (as it is
whenever every previously recorded time was nonnegative), the divisor of
the `theoretical_throughput` division — the updated running-mean
processing time — is strictly positive, so the call completes without a
`ZeroDivisionError`; and with a zero measured time (from fresh metrics)
no guard protects the division: the call fails. -/
theorem c10_division_guard :
    (∀ (cfg : BatchOptimizerConfig) (m : Metrics) (s : ℤ) (pt : ℚ),
        0 < pt → 0 ≤ m.avg_processing_time_ms →
        ∃ m', updateMetrics cfg m s pt = some m' ∧
          0 < m'.avg_processing_time_ms) ∧
    updateMetrics defaultConfig initMetrics 5 0 = none := by
  constructor
  · intro cfg m s pt hpt h0
    obtain ⟨m', hm', _, _, hpos⟩ := updateMetrics_some cfg m s pt h0 hpt
    exact ⟨m', hm', hpos⟩
  · simp only [updateMetrics, initMetrics]
    norm_num

theorem c10_division_guard_witness :
    ∃ m', updateMetrics defaultConfig initMetrics 3 1 = some m' ∧
      0 < m'.avg_processing_time_ms :=
  c10_division_guard.1 defaultConfig initMetrics 3 1 (by norm_num)
    (by norm_num [initMetrics])

/-- C7: `_update_metrics` updates the running-mean batch size by the
incremental formula `mean' = (mean*(n-1) + x)/n` with `n` the incremented
batch counter, and starting from fresh metrics, dispatching batches of
sizes 10, 20 and 30 (with any positive processing times) leaves
`avg_batch_size` at 10, 15 and 20 after the successive steps. -/
theorem c7_running_mean :
    (∀ (cfg : BatchOptimizerConfig) (m : Metrics) (s : ℤ) (pt : ℚ)
        (m' : Metrics), updateMetrics cfg m s pt = some m' →
        m'.batches_processed = m.batches_processed + 1 ∧
        m'.avg_batch_size =
          (m.avg_batch_size * ((m'.batches_processed : ℚ) - 1) + (s : ℚ)) /
            (m'.batches_processed : ℚ)) ∧
    (∀ t1 t2 t3 : ℚ, 0 < t1 → 0 < t2 → 0 < t3 →
        ∃ m1 m2 m3 : Metrics,
          updateMetrics defaultConfig initMetrics 10 t1 = some m1 ∧
          m1.avg_batch_size = 10 ∧
          updateMetrics defaultConfig m1 20 t2 = some m2 ∧
          m2.avg_batch_size = 15 ∧
          updateMetrics defaultConfig m2 30 t3 = some m3 ∧
          m3.avg_batch_size = 20) := by
  constructor
  · intro cfg m s pt m' hm'
    simp only [updateMetrics] at hm'
    by_cases hz :
        (m.avg_processing_time_ms * (((m.batches_processed + 1 : ℕ) : ℚ) - 1) + pt) /
          ((m.batches_processed + 1 : ℕ) : ℚ) = 0
    · rw [if_pos hz] at hm'
      exact absurd hm' (by simp)
    · rw [if_neg hz] at hm'
      obtain rfl := (Option.some.injEq _ _).mp hm'
      exact ⟨rfl, rfl⟩
  · intro t1 t2 t3 h1 h2 h3
    obtain ⟨m1, e1, b1, a1, p1⟩ :=
      updateMetrics_some defaultConfig initMetrics 10 t1 le_rfl h1
    obtain ⟨m2, e2, b2, a2, p2⟩ :=
      updateMetrics_some defaultConfig m1 20 t2 (le_of_lt p1) h2
    obtain ⟨m3, e3, b3, a3, p3⟩ :=
      updateMetrics_some defaultConfig m2 30 t3 (le_of_lt p2) h3
    have hv1 : m1.avg_batch_size = 10 := by
      rw [a1]; norm_num [initMetrics]
    have hv2 : m2.avg_batch_size = 15 := by
      rw [a2, hv1, b1]; norm_num [initMetrics]
    have hv3 : m3.avg_batch_size = 20 := by
      rw [a3, hv2, b2, b1]; norm_num [initMetrics]
    exact ⟨m1, m2, m3, e1, hv1, e2, hv2, e3, hv3⟩

theorem c7_running_mean_witness :
    ∃ m1 m2 m3 : Metrics,
      updateMetrics defaultConfig initMetrics 10 1 = some m1 ∧
      m1.avg_batch_size = 10 ∧
      updateMetrics defaultConfig m1 20 1 = some m2 ∧
      m2.avg_batch_size = 15 ∧
      updateMetrics defaultConfig m2 30 1 = some m3 ∧
      m3.avg_batch_size = 20 :=
  c7_running_mean.2 1 1 1 (by norm_num) (by norm_num) (by norm_num)

/-- A single guarded completion never disturbs an already-completed
future, at any key. -/
theorem completeIfPending_done (f : ℕ → FutureState) (id : ℕ)
    (s : FutureState) (i : ℕ) (h : (f i).done = true) :
    completeIfPending f id s i = f i := by
  unfold completeIfPending
  by_cases hi : i = id
  · subst hi; rw [if_pos rfl, if_pos h]
  · rw [if_neg hi]

/-- A single guarded completion leaves every other key untouched. -/
theorem completeIfPending_other (f : ℕ → FutureState) (id : ℕ)
    (s : FutureState) (i : ℕ) (h : i ≠ id) :
    completeIfPending f id s i = f i := by
  unfold completeIfPending
  rw [if_neg h]

/-- The target key of a guarded completion to a done value is done
afterwards. -/
theorem completeIfPending_target_done (f : ℕ → FutureState) (id : ℕ)
    (s : FutureState) (hs : s.done = true) :
    (completeIfPending f id s id).done = true := by
  unfold completeIfPending
  rw [if_pos rfl]
  by_cases hd : (f id).done = true
  · rw [if_pos hd]; exact hd
  · rw [if_neg hd]; exact hs

/-- An already-completed future survives the whole success-path fold. -/
theorem distributeResults_done (pairs : List (PrioritizedRequest × ℕ))
    (f : ℕ → FutureState) (i : ℕ) (h : (f i).done = true) :
    distributeResults pairs f i = f i := by
  induction pairs generalizing f with
  | nil => rfl
  | cons p t ih =>
      show distributeResults t (completeIfPending f p.1.request_id (.result p.2)) i = f i
      rw [ih _ (by rw [completeIfPending_done f _ _ i h]; exact h),
        completeIfPending_done f _ _ i h]

/-- The success-path fold never touches a key that is not the id of a
dispatched item. -/
theorem distributeResults_not_mem (pairs : List (PrioritizedRequest × ℕ))
    (f : ℕ → FutureState) (i : ℕ)
    (h : i ∉ pairs.map (fun pr => pr.1.request_id)) :
    distributeResults pairs f i = f i := by
  induction pairs generalizing f with
  | nil => rfl
  | cons p t ih =>
      simp only [List.map_cons, List.mem_cons, not_or] at h
      show distributeResults t (completeIfPending f p.1.request_id (.result p.2)) i = f i
      rw [ih _ h.2, completeIfPending_other f _ _ i h.1]


/-- A guarded completion at its own key: keep a done value, else set. -/
theorem completeIfPending_self (f : ℕ → FutureState) (id : ℕ)
    (s : FutureState) :
    completeIfPending f id s id = if (f id).done then f id else s := by
  unfold completeIfPending
  rw [if_pos rfl]

/-- An already-completed future survives the whole failure-path fold. -/
theorem failBatch_done (batch : List PrioritizedRequest) (e : ℕ)
    (f : ℕ → FutureState) (i : ℕ) (h : (f i).done = true) :
    failBatch batch e f i = f i := by
  induction batch generalizing f with
  | nil => rfl
  | cons x t ih =>
      show failBatch t e (completeIfPending f x.request_id (.failure e)) i = f i
      rw [ih _ (by rw [completeIfPending_done f _ _ i h]; exact h),
        completeIfPending_done f _ _ i h]

/-- What the failure path leaves at the key of a batch member: a done
value stays, a pending future becomes the batch error. -/
theorem failBatch_apply (batch : List PrioritizedRequest) (e : ℕ)
    (f : ℕ → FutureState) (r : PrioritizedRequest) (hr : r ∈ batch) :
    failBatch batch e f r.request_id =
      if (f r.request_id).done then f r.request_id else FutureState.failure e := by
  induction batch generalizing f with
  | nil => cases hr
  | cons x t ih =>
      show failBatch t e (completeIfPending f x.request_id (.failure e)) r.request_id = _
      rcases List.mem_cons.mp hr with rfl | hrt
      · rw [failBatch_done t e _ r.request_id
            (by
              rw [completeIfPending_self]
              by_cases hd : (f r.request_id).done = true
              · rw [if_pos hd]; exact hd
              · rw [if_neg hd]; rfl),
          completeIfPending_self]
      · rw [ih _ hrt]
        by_cases hx : r.request_id = x.request_id
        · rw [hx, completeIfPending_self]
          by_cases hd : (f x.request_id).done = true
          · simp [hd]
          · rw [if_neg hd]
            simp
        · rw [completeIfPending_other f _ _ _ hx]

/-- C3: when the processor invocation for a dispatched batch raises, the
failure path completes every member's result handle; a handle that was
still pending receives exactly the batch error. -/
theorem c3_failure_fanout (batch : List PrioritizedRequest) (e : ℕ)
    (f : ℕ → FutureState) (r : PrioritizedRequest) (hr : r ∈ batch) :
    (failBatch batch e f r.request_id).done = true ∧
      ((f r.request_id).done = false →
        failBatch batch e f r.request_id = FutureState.failure e) := by
  rw [failBatch_apply batch e f r hr]
  by_cases hd : (f r.request_id).done = true
  · rw [if_pos hd]
    exact ⟨hd, fun h => by rw [h] at hd; cases hd⟩
  · rw [if_neg hd]
    exact ⟨rfl, fun _ => rfl⟩

/-- A NORMAL-priority request enqueued at time 1. -/
def reqA : PrioritizedRequest :=
  { priority := 2, timestamp := 1, request_id := 1, request_data := [] }

/-- A NORMAL-priority request enqueued at time 2. -/
def reqB : PrioritizedRequest :=
  { priority := 2, timestamp := 2, request_id := 2, request_data := [] }

theorem c3_failure_fanout_witness :
    (failBatch [reqA] 7 (fun _ => FutureState.pending) reqA.request_id).done = true ∧
      (((fun _ => FutureState.pending) reqA.request_id : FutureState).done = false →
        failBatch [reqA] 7 (fun _ => FutureState.pending) reqA.request_id =
          FutureState.failure 7) :=
  c3_failure_fanout [reqA] 7 (fun _ => FutureState.pending) reqA (by simp)

/-- C8: an item whose result handle is already completed when the
Dispatcher distributes results (success path) or fans out a batch failure
(error path) is left exactly as it was: the guarded completion is a
no-op, the prior value is not overwritten, and no exception is modelled
to escape (both paths are total functions). -/
theorem c8_idempotent_completion (batch : List PrioritizedRequest)
    (results : List ℕ) (e : ℕ) (f : ℕ → FutureState) (i : ℕ)
    (h : (f i).done = true) :
    processBatchSuccess batch results f i = f i ∧
      failBatch batch e f i = f i :=
  ⟨distributeResults_done _ f i h, failBatch_done batch e f i h⟩

theorem c8_idempotent_completion_witness :
    processBatchSuccess [reqA] [5] (fun _ => FutureState.result 9) reqA.request_id =
        (fun _ => FutureState.result 9) reqA.request_id ∧
      failBatch [reqA] 7 (fun _ => FutureState.result 9) reqA.request_id =
        (fun _ => FutureState.result 9) reqA.request_id :=
  c8_idempotent_completion [reqA] [5] 7 (fun _ => FutureState.result 9)
    reqA.request_id rfl

theorem reqLe_refl (a : PrioritizedRequest) : reqLe a a :=
  Or.inr ⟨rfl, le_rfl⟩

theorem reqLe_trans (a b c : PrioritizedRequest) (h1 : reqLe a b)
    (h2 : reqLe b c) : reqLe a c := by
  rcases h1 with h1 | ⟨e1, t1⟩ <;> rcases h2 with h2 | ⟨e2, t2⟩
  · exact Or.inl (h1.trans h2)
  · exact Or.inl (e2 ▸ h1)
  · exact Or.inl (e1 ▸ h2)
  · exact Or.inr ⟨e1.trans e2, t1.trans t2⟩

theorem reqLe_total (a b : PrioritizedRequest) : reqLe a b ∨ reqLe b a := by
  rcases lt_trichotomy a.priority b.priority with h | h | h
  · exact Or.inl (Or.inl h)
  · rcases le_total a.timestamp b.timestamp with ht | ht
    · exact Or.inl (Or.inr ⟨h, ht⟩)
    · exact Or.inr (Or.inr ⟨h.symm, ht⟩)
  · exact Or.inr (Or.inl h)

theorem popMin_cons_isSome (x : PrioritizedRequest)
    (xs : List PrioritizedRequest) : (popMin (x :: xs)).isSome = true := by
  rcases hp : popMin xs with _ | ⟨m, rest⟩ <;> simp only [popMin, hp]
  · rfl
  · split <;> rfl

theorem popMin_none_eq_nil (l : List PrioritizedRequest)
    (h : popMin l = none) : l = [] := by
  cases l with
  | nil => rfl
  | cons x xs =>
      have := popMin_cons_isSome x xs
      rw [h] at this
      cases this

/-- `heappop` returns a member of the heap that is `reqLe`-below every
member, and every element of the remainder was in the heap. -/
theorem popMin_spec (l : List PrioritizedRequest) (m : PrioritizedRequest)
    (rest : List PrioritizedRequest) (h : popMin l = some (m, rest)) :
    m ∈ l ∧ (∀ y ∈ l, reqLe m y) ∧ ∀ y ∈ rest, y ∈ l := by
  induction l generalizing m rest with
  | nil => cases h
  | cons x xs ih =>
      rcases hp : popMin xs with _ | ⟨m', rest'⟩
      · rw [show popMin (x :: xs) = some (x, []) by simp only [popMin, hp]] at h
        have hxs : xs = [] := popMin_none_eq_nil xs hp
        subst hxs
        cases h
        refine ⟨List.mem_singleton_self x, ?_, by intro y hy; cases hy⟩
        intro y hy
        rw [List.mem_singleton] at hy
        exact hy ▸ reqLe_refl x
      · obtain ⟨hm'x, hmin, hsub⟩ := ih m' rest' hp
        rw [show popMin (x :: xs) =
            if reqLe x m' then some (x, xs) else some (m', x :: rest') by
          simp only [popMin, hp]] at h
        by_cases hle : reqLe x m'
        · rw [if_pos hle] at h
          cases h
          refine ⟨List.mem_cons_self x xs, ?_,
            fun y hy => List.mem_cons_of_mem x hy⟩
          intro y hy
          rcases List.mem_cons.mp hy with rfl | hy
          · exact reqLe_refl y
          · exact reqLe_trans x m' y hle (hmin y hy)
        · rw [if_neg hle] at h
          rw [Option.some.injEq, Prod.mk.injEq] at h
          rw [← h.1, ← h.2]
          have hmx : reqLe m' x := (reqLe_total x m').resolve_left hle
          refine ⟨List.mem_cons_of_mem x hm'x, ?_, ?_⟩
          · intro y hy
            rcases List.mem_cons.mp hy with rfl | hy
            · exact hmx
            · exact hmin y hy
          · intro y hy
            rcases List.mem_cons.mp hy with rfl | hy
            · exact List.mem_cons_self y xs
            · exact List.mem_cons_of_mem x (hsub y hy)

theorem collectPops_subset (n : ℕ) (h : List PrioritizedRequest)
    (y : PrioritizedRequest) (hy : y ∈ collectPops n h) : y ∈ h := by
  induction n generalizing h with
  | zero => cases hy
  | succ n ih =>
      rcases hp : popMin h with _ | ⟨m, rest⟩
      · rw [show collectPops (n + 1) h = [] by simp only [collectPops, hp]] at hy
        cases hy
      · obtain ⟨hm, _, hsub⟩ := popMin_spec h m rest hp
        rw [show collectPops (n + 1) h = m :: collectPops n rest by
          simp only [collectPops, hp]] at hy
        rcases List.mem_cons.mp hy with rfl | hy
        · exact hm
        · exact hsub y (ih rest hy)

theorem collectPops_pairwise (n : ℕ) (h : List PrioritizedRequest) :
    (collectPops n h).Pairwise reqLe := by
  induction n generalizing h with
  | zero => exact List.Pairwise.nil
  | succ n ih =>
      rcases hp : popMin h with _ | ⟨m, rest⟩
      · rw [show collectPops (n + 1) h = [] by simp only [collectPops, hp]]
        exact List.Pairwise.nil
      · obtain ⟨_, hmin, hsub⟩ := popMin_spec h m rest hp
        rw [show collectPops (n + 1) h = m :: collectPops n rest by
          simp only [collectPops, hp]]
        exact List.Pairwise.cons
          (fun y hy => hmin y (hsub y (collectPops_subset n rest y hy)))
          (ih rest)

/-- C5: each pop removes an element `reqLe`-below everything still
queued, the sequence of pops is nondecreasing in `(priority, timestamp)`,
and for two equal-priority items collected in the same round the one with
the earlier enqueue timestamp occupies the earlier batch position. -/
theorem c5_priority_fifo :
    (∀ (h : List PrioritizedRequest) (m : PrioritizedRequest)
        (rest : List PrioritizedRequest), popMin h = some (m, rest) →
        ∀ y ∈ h, reqLe m y) ∧
    (∀ (n : ℕ) (h : List PrioritizedRequest) (i j : Fin (collectPops n h).length),
        i < j → reqLe ((collectPops n h).get i) ((collectPops n h).get j)) ∧
    (∀ (n : ℕ) (h : List PrioritizedRequest) (i j : Fin (collectPops n h).length),
        ((collectPops n h).get i).priority = ((collectPops n h).get j).priority →
        ((collectPops n h).get i).timestamp < ((collectPops n h).get j).timestamp →
        i < j) := by
  have hget : ∀ (n : ℕ) (h : List PrioritizedRequest)
      (i j : Fin (collectPops n h).length), i < j →
      reqLe ((collectPops n h).get i) ((collectPops n h).get j) :=
    fun n h i j hij =>
      (List.pairwise_iff_get.mp (collectPops_pairwise n h)) i j hij
  refine ⟨fun h m rest hp => (popMin_spec h m rest hp).2.1, hget, ?_⟩
  intro n h i j hpr hts
  rcases lt_trichotomy i j with hij | hij | hij
  · exact hij
  · exact absurd (hij ▸ hts) (lt_irrefl _)
  · exfalso
    rcases hget n h j i hij with hlt | ⟨_, hle⟩
    · exact absurd (hpr ▸ hlt) (lt_irrefl _)
    · exact absurd (lt_of_lt_of_le hts hle) (lt_irrefl _)

theorem c5_priority_fifo_witness :
    reqLe reqA reqB ∧ (0 : ℕ) < 1 := by
  have h1 := c5_priority_fifo.1 [reqB, reqA] reqA [reqB]
    (by simp [popMin, reqLe, reqA, reqB]) reqB (by simp)
  have hlen : (collectPops 2 [reqB, reqA]).length = 2 := by
    simp [collectPops, popMin, reqLe, reqA, reqB]
  have h2 := c5_priority_fifo.2.2 2 [reqB, reqA]
    ⟨0, by rw [hlen]; norm_num⟩ ⟨1, by rw [hlen]; norm_num⟩
  refine ⟨h1, ?_⟩
  have := h2 (by simp [collectPops, popMin, reqLe, reqA, reqB])
    (by simp [collectPops, popMin, reqLe, reqA, reqB])
  exact this

theorem firstKeysAux_mem {α : Type} [DecidableEq α] (seen l : List α)
    (x : α) : x ∈ firstKeysAux seen l ↔ x ∈ l ∧ x ∉ seen := by
  induction l generalizing seen with
  | nil => simp [firstKeysAux]
  | cons h t ih =>
      by_cases hs : h ∈ seen
      · rw [show firstKeysAux seen (h :: t) = firstKeysAux seen t by
          simp [firstKeysAux, hs]]
        rw [ih seen]
        constructor
        · rintro ⟨hx, hns⟩
          exact ⟨List.mem_cons_of_mem h hx, hns⟩
        · rintro ⟨hx, hns⟩
          rcases List.mem_cons.mp hx with rfl | hx
          · exact absurd hs hns
          · exact ⟨hx, hns⟩
      · rw [show firstKeysAux seen (h :: t) = h :: firstKeysAux (h :: seen) t by
          simp [firstKeysAux, hs]]
        constructor
        · intro hx
          rcases List.mem_cons.mp hx with rfl | hx
          · exact ⟨List.mem_cons_self _ _, hs⟩
          · obtain ⟨hxt, hxs⟩ := (ih (h :: seen)).mp hx
            exact ⟨List.mem_cons_of_mem h hxt,
              fun hc => hxs (List.mem_cons_of_mem h hc)⟩
        · rintro ⟨hx, hns⟩
          rcases List.mem_cons.mp hx with rfl | hx
          · exact List.mem_cons_self _ _
          · by_cases hxh : x = h
            · exact hxh ▸ List.mem_cons_self _ _
            · refine List.mem_cons_of_mem h ((ih (h :: seen)).mpr ⟨hx, ?_⟩)
              intro hc
              rcases List.mem_cons.mp hc with h1 | h1
              · exact hxh h1
              · exact hns h1

theorem firstKeys_mem {α : Type} [DecidableEq α] (l : List α) (x : α) :
    x ∈ firstKeys l ↔ x ∈ l := by
  rw [firstKeys, firstKeysAux_mem]
  simp

/-- Every member of a hash group carries that hash. -/
theorem mem_groupOf_hash (batch : List PrioritizedRequest)
    (h : List (ℤ × ℤ)) (x : PrioritizedRequest) (hx : x ∈ groupOf batch h) :
    reqHash x = h :=
  of_decide_eq_true (List.mem_filter.mp hx).2

/-- The coalesced batch only contains members of the original batch. -/
theorem coalesceKept_subset (batch : List PrioritizedRequest)
    (x : PrioritizedRequest) (hx : x ∈ coalesceKept batch) : x ∈ batch := by
  obtain ⟨h, _, hh⟩ := List.mem_filterMap.mp hx
  cases hgg : groupOf batch h with
  | nil => rw [hgg] at hh; cases hh
  | cons q qt =>
      rw [hgg] at hh
      obtain rfl : q = x := by cases hh; rfl
      exact List.mem_of_mem_filter (hgg ▸ List.mem_cons_self q qt)

/-- The head of a group whose key was collected is kept. -/
theorem head_mem_coalesceKept (batch : List PrioritizedRequest)
    (h : List (ℤ × ℤ)) (p : PrioritizedRequest)
    (t : List PrioritizedRequest) (hk : h ∈ coalesceKeys batch)
    (hg : groupOf batch h = p :: t) : p ∈ coalesceKept batch :=
  List.mem_filterMap.mpr ⟨h, hk, by rw [hg]; rfl⟩

/-- A multi-member group produces its side-table entry. -/
theorem table_entry_of_group (batch : List PrioritizedRequest)
    (h : List (ℤ × ℤ)) (p t0 : PrioritizedRequest)
    (t : List PrioritizedRequest) (hk : h ∈ coalesceKeys batch)
    (hg : groupOf batch h = p :: t0 :: t) :
    (p.request_id, (t0 :: t).map PrioritizedRequest.request_id) ∈
      coalesceTable batch :=
  List.mem_filterMap.mpr ⟨h, hk, by rw [hg]⟩

/-- A dispatched `(item, result)` pair leaves the item's future done. -/
theorem distributeResults_mem_done (pairs : List (PrioritizedRequest × ℕ))
    (f : ℕ → FutureState) (r : PrioritizedRequest) (v : ℕ)
    (hrv : (r, v) ∈ pairs) :
    (distributeResults pairs f r.request_id).done = true := by
  induction pairs generalizing f with
  | nil => cases hrv
  | cons p t ih =>
      rcases List.mem_cons.mp hrv with heq | hrv
      · obtain rfl : (r, v) = p := heq
        show (distributeResults t
          (completeIfPending f r.request_id (.result v)) r.request_id).done = true
        rw [distributeResults_done t _ _
          (completeIfPending_target_done f r.request_id (.result v) rfl)]
        exact completeIfPending_target_done f r.request_id (.result v) rfl
      · exact ih _ hrv

/-- With one result per kept item, every kept item is zipped with some
result. -/
theorem mem_zip_of_length_eq (l : List PrioritizedRequest) (r : List ℕ)
    (hlen : r.length = l.length) (x : PrioritizedRequest) (hx : x ∈ l) :
    ∃ v, (x, v) ∈ l.zip r := by
  induction l generalizing r with
  | nil => cases hx
  | cons a t ih =>
      cases r with
      | nil => cases hlen
      | cons v vs =>
          rcases List.mem_cons.mp hx with rfl | hx
          · exact ⟨v, List.mem_cons_self _ _⟩
          · obtain ⟨w, hw⟩ := ih vs (by simpa using hlen) hx
            exact ⟨w, List.mem_cons_of_mem _ hw⟩

/-- C2: in a collected batch where coalescing groups two items of equal
payload hash (`a` before `b`, ids distinct across the batch), `b`'s id is
recorded in the side table against the kept group head's id, `b` itself
is dropped from the dispatched batch, and the dispatch success path
leaves `b`'s result handle exactly as it was — the result-sharing loop in
`_process_batch` is a no-op — while the kept head's handle is completed
(given one processor result per kept item).  A caller waiting on `b`'s
handle can therefore only time out. -/
theorem c2_coalesced_never_completed (l1 l2 l3 : List PrioritizedRequest)
    (a b : PrioritizedRequest) (results : List ℕ) (f : ℕ → FutureState)
    (hh : reqHash a = reqHash b)
    (hnodup : ((l1 ++ a :: l2 ++ b :: l3).map PrioritizedRequest.request_id).Nodup)
    (hlen : results.length = (coalesceKept (l1 ++ a :: l2 ++ b :: l3)).length) :
    ∃ pid sids,
      (pid, sids) ∈ coalesceTable (l1 ++ a :: l2 ++ b :: l3) ∧
      b.request_id ∈ sids ∧
      b.request_id ∉
        (coalesceKept (l1 ++ a :: l2 ++ b :: l3)).map PrioritizedRequest.request_id ∧
      processBatchSuccess (coalesceKept (l1 ++ a :: l2 ++ b :: l3)) results f
          b.request_id = f b.request_id ∧
      ((f pid).done = false →
        (processBatchSuccess (coalesceKept (l1 ++ a :: l2 ++ b :: l3)) results f
          pid).done = true) := by
  set batch := l1 ++ a :: l2 ++ b :: l3 with hbatch
  have hbmem : b ∈ batch := by simp [hbatch]
  have hkey : reqHash b ∈ coalesceKeys batch := by
    simp only [coalesceKeys]
    rw [firstKeys_mem]
    exact List.mem_map_of_mem reqHash hbmem
  set pr : PrioritizedRequest → Bool :=
    fun r => decide (reqHash r = reqHash b) with hpr
  have hfa : pr a = true := decide_eq_true hh
  have hfb : pr b = true := decide_eq_true rfl
  have hgsplit : groupOf batch (reqHash b) =
      (l1.filter pr ++ a :: l2.filter pr) ++ b :: l3.filter pr := by
    rw [hbatch]
    simp only [groupOf]
    rw [← hpr]
    simp only [List.filter_append, List.filter_cons, hfa, hfb,
      eq_self_iff_true, if_true]
  obtain ⟨p, t, hg, hbt⟩ :
      ∃ p t, groupOf batch (reqHash b) = p :: t ∧ b ∈ t := by
    rcases hfl1 : l1.filter pr with _ | ⟨c, cs⟩
    · refine ⟨a, l2.filter pr ++ b :: l3.filter pr, ?_, ?_⟩
      · rw [hgsplit, hfl1]
        rfl
      · exact List.mem_append_right _ (List.mem_cons_self b _)
    · refine ⟨c, (cs ++ a :: l2.filter pr) ++ b :: l3.filter pr, ?_, ?_⟩
      · rw [hgsplit, hfl1]
        rfl
      · exact List.mem_append_right _ (List.mem_cons_self b _)
  rcases t with _ | ⟨t0, t''⟩
  · cases hbt
  have hbnk : b.request_id ∉
      (coalesceKept batch).map PrioritizedRequest.request_id := by
    intro hmem
    obtain ⟨x, hxk, hxid⟩ := List.mem_map.mp hmem
    have hxb : x ∈ batch := coalesceKept_subset batch x hxk
    have hxeq : x = b := List.inj_on_of_nodup_map hnodup hxb hbmem hxid
    have hbk : b ∈ coalesceKept batch := hxeq ▸ hxk
    obtain ⟨h', hk', hh'⟩ := List.mem_filterMap.mp hbk
    have hbg : b ∈ groupOf batch h' := by
      cases hgg : groupOf batch h' with
      | nil => rw [hgg] at hh'; cases hh'
      | cons q qt =>
          rw [hgg] at hh'
          have hqb : q = b := Option.some.inj hh'
          rw [← hqb]
          exact List.mem_cons_self q qt
    have hh2 : h' = reqHash b := (mem_groupOf_hash batch h' b hbg).symm
    subst hh2
    rw [hg] at hh'
    have hpb : p = b := Option.some.inj hh'
    have hbn : batch.Nodup := List.Nodup.of_map _ hnodup
    have hgn : (groupOf batch (reqHash b)).Nodup := hbn.filter _
    rw [hg] at hgn
    rw [← hpb] at hbt
    exact (List.nodup_cons.mp hgn).1 hbt
  have hmain : processBatchSuccess (coalesceKept batch) results f
      b.request_id = f b.request_id := by
    rw [processBatchSuccess]
    apply distributeResults_not_mem
    intro hmem
    obtain ⟨⟨r1, v1⟩, hprz, hprid⟩ := List.mem_map.mp hmem
    exact hbnk (hprid ▸ List.mem_map_of_mem PrioritizedRequest.request_id
      (List.of_mem_zip hprz).1)
  have hpk : p ∈ coalesceKept batch :=
    head_mem_coalesceKept batch (reqHash b) p (t0 :: t'') hkey hg
  obtain ⟨v, hv⟩ := mem_zip_of_length_eq (coalesceKept batch) results hlen p hpk
  exact ⟨p.request_id, (t0 :: t'').map PrioritizedRequest.request_id,
    table_entry_of_group batch (reqHash b) p t0 t'' hkey hg,
    List.mem_map_of_mem _ hbt, hbnk, hmain,
    fun _ => distributeResults_mem_done _ f p v hv⟩

/-- A NORMAL-priority request with payload `{1: 2}` submitted at time 1. -/
def reqC : PrioritizedRequest :=
  { priority := 2, timestamp := 1, request_id := 10, request_data := [(1, 2)] }

/-- A NORMAL-priority request with the same payload, submitted at time 2. -/
def reqD : PrioritizedRequest :=
  { priority := 2, timestamp := 2, request_id := 11, request_data := [(1, 2)] }

theorem c2_coalesced_never_completed_witness :
    ∃ pid sids,
      (pid, sids) ∈ coalesceTable ([] ++ reqC :: [] ++ reqD :: []) ∧
      reqD.request_id ∈ sids ∧
      reqD.request_id ∉
        (coalesceKept ([] ++ reqC :: [] ++ reqD :: [])).map PrioritizedRequest.request_id ∧
      processBatchSuccess (coalesceKept ([] ++ reqC :: [] ++ reqD :: [])) [42]
          (fun _ => FutureState.pending) reqD.request_id =
        (fun _ => FutureState.pending) reqD.request_id ∧
      (((fun _ => FutureState.pending) pid : FutureState).done = false →
        (processBatchSuccess (coalesceKept ([] ++ reqC :: [] ++ reqD :: [])) [42]
          (fun _ => FutureState.pending) pid).done = true) :=
  c2_coalesced_never_completed [] [] [] reqC reqD [42]
    (fun _ => FutureState.pending) (by decide) (by decide) (by decide)

end BatchOpt
